import Mathlib

/-!
Verification of `mindboggle/mio/colors.py`.

The source file has two core functions:

* `distinguishable_colors(ncolors, backgrounds, save_csv, plot_colormap,
  verbose)` — greedy maximin selection of `ncolors` RGB triples from a
  hard-coded 30×30×30 grid over the unit RGB cube, maximizing at each step the
  minimum perceptual distance to the background colors and to all
  previously-picked colors.
* `group_colors(colormap, adjacency_matrix, IDs, names, groups, ...)` —
  adjacency-aware reassignment of an existing colormap over label groups.

The perceptual machinery (`convert_color` to CIELAB composed with
`delta_e_cie2000`) lives in the third-party `colormath` package, outside this
repository; following the spec's external-collaborator contract it is modelled
as an abstract parameter `d : RGB → RGB → ℚ` (a pure, non-negative distance
with `d a a = 0`).  Floating-point numbers are modelled by exact rationals.
Raised Python exceptions are modelled by `Except.error` carrying the message.
`np.argsort` is modelled as a stable sort on (value, index) pairs, implemented
by structural insertion sort so that every definition evaluates inside the
kernel.
-/

abbrev RGB : Type := ℚ × ℚ × ℚ

/-- Default RGB value used for (unreachable) out-of-range list accesses.
Also pure black, the first default background color. -/
def rgb0 : RGB := (0, 0, 0)

/-- Pure white, the second default background color. -/
def rgb1 : RGB := (1, 1, 1)

/-- The default `backgrounds` argument of the source: pure black and pure
white (line 13). -/
def defaultBG : List RGB := [(0, 0, 0), (1, 1, 1)]

/-! ### np.argsort, np.unique, np.size, np.max -/

/-- Insert a (key, index) pair into a list sorted lexicographically by
(key, index).  Lexicographic insertion on (key, index) pairs of distinct
indices realizes a stable sort by key, which is how `np.argsort` is modelled
(ties broken by original position). -/
def insertPair {α : Type} [LinearOrder α] (p : α × ℕ) : List (α × ℕ) → List (α × ℕ)
  | [] => [p]
  | q :: r => if p.1 < q.1 ∨ (p.1 = q.1 ∧ p.2 < q.2) then p :: q :: r else q :: insertPair p r

/-- Insertion sort of (key, index) pairs, lexicographic by (key, index). -/
def sortPairs {α : Type} [LinearOrder α] : List (α × ℕ) → List (α × ℕ)
  | [] => []
  | p :: r => insertPair p (sortPairs r)

/-- `np.argsort l` (ascending, stable): the indices of `l` reordered so that
the corresponding values are ascending, ties broken by original index. -/
def argsortAsc {α : Type} [LinearOrder α] (l : List α) : List ℕ :=
  (sortPairs (l.zip (List.range l.length))).map Prod.snd

/-- `np.argsort(l)[::-1]`: the ascending argsort, reversed. -/
def argsortDesc {α : Type} [LinearOrder α] (l : List α) : List ℕ :=
  (argsortAsc l).reverse

/-- Insert a value into an ascending-sorted list. -/
def insertVal {α : Type} [LinearOrder α] (a : α) : List α → List α
  | [] => [a]
  | b :: r => if a ≤ b then a :: b :: r else b :: insertVal a r

/-- `np.unique l`: the distinct values of `l` in ascending order. -/
def npUnique {α : Type} [LinearOrder α] [DecidableEq α] (l : List α) : List α :=
  l.dedup.foldr insertVal []

/-- `np.size` of a matrix given as a list of rows: total number of entries. -/
def npSize (m : List (List ℚ)) : ℕ := (m.map List.length).sum

/-- Python `max` / `np.max` over a list of rationals (0 for the empty list,
which the source never reaches because it guards on emptiness). -/
def listMaxQ : List ℚ → ℚ
  | [] => 0
  | a :: r => r.foldl max a

/-! ### distinguishable_colors (colors.py lines 13–174) -/

/-- `n_grid = 30`, the hard-coded number of grid divisions per RGB axis. -/
def n_grid : ℕ := 30

/-- The `i`-th value of `np.linspace(0, 1, num=30, endpoint=True)`: `i / 29`. -/
def gridVal (i : ℕ) : ℚ := (i : ℚ) / ((n_grid : ℚ) - 1)

/-- The candidate pool built from `np.meshgrid(x, x, x)` followed by `ravel`
and `vstack` (lines 84–89): flat index `a*900 + b*30 + c` holds the triple
`(x[b], x[a], x[c])` by the `xy` indexing convention of `np.meshgrid`. -/
def RGBpool : List RGB :=
  (List.range n_grid).flatMap (fun a =>
    (List.range n_grid).flatMap (fun b =>
      (List.range n_grid).map (fun c => (gridVal b, gridVal a, gridVal c))))

/-- The running minimum of `d c s` over `s ∈ S`, starting from `np.inf`
(modelled by `⊤ : WithTop ℚ`), folded in list order exactly as the source
updates `min_dx[i] = min(dx, min_dx[i])`. -/
def minOver (d : RGB → RGB → ℚ) (S : List RGB) (c : RGB) : WithTop ℚ :=
  S.foldl (fun m s => min (↑(d c s)) m) ⊤

/-- Lines 115–121: `min_dx` seeded with each candidate's minimum distance to
the background colors (`np.inf` when `backgrounds` is empty). -/
def initMinDx (d : RGB → RGB → ℚ) (backgrounds : List RGB) : List (WithTop ℚ) :=
  RGBpool.map (minOver d backgrounds)

/-- The maximum of a list of `WithTop ℚ` (0 for the empty list, unreachable
since the pool is non-empty). -/
def listMaxW : List (WithTop ℚ) → WithTop ℚ
  | [] => 0
  | a :: r => r.foldl max a

/-- `np.argmax`: the first index attaining the maximum value. -/
def argmaxIdx (l : List (WithTop ℚ)) : ℕ :=
  l.findIdx (fun v => decide (v = listMaxW l))

/-- Lines 130–144: the selection loop.  Each iteration first folds the distance
to the last chosen color into `min_dx`, then picks the candidate with maximal
`min_dx` (first index on ties, as `np.argmax` does), emits its RGB triple and
makes it the last chosen color. -/
def selectLoop (d : RGB → RGB → ℚ) : ℕ → List (WithTop ℚ) → RGB → List RGB
  | 0, _, _ => []
  | n + 1, minDx, lastColor =>
      let minDx2 := List.zipWith (fun c m => min (↑(d c lastColor)) m) RGBpool minDx
      let imax := argmaxIdx minDx2
      let pick := RGBpool.getD imax rgb0
      pick :: selectLoop d n minDx2 pick

/-- Message of the `IOError` raised at line 91 (`CapacityError` in the spec). -/
def capacityMsg : String := "You cannot readily distinguish that many colors"

/-- `distinguishable_colors(ncolors, backgrounds, save_csv, plot_colormap,
verbose)` (lines 13–174).  The capacity check of lines 90–91 precedes
everything; `bg_lab_colors[-1]` at line 128 raises `IndexError` when
`backgrounds` is empty.  The `plot_colormap`/`save_csv`/`verbose` branches
(lines 149–172) only read `colors` for plotting and file output and never
rebind it, so they do not contribute to the returned value. -/
def distinguishable_colors (d : RGB → RGB → ℚ) (ncolors : ℕ)
    (backgrounds : List RGB) (save_csv plot_colormap verbose : Bool) :
    Except String (List RGB) :=
  if RGBpool.length < ncolors then Except.error capacityMsg
  else
    match backgrounds.getLast? with
    | none => Except.error "IndexError: list index out of range"
    | some lastBg => Except.ok (selectLoop d ncolors (initMinDx d backgrounds) lastBg)

/-! ### group_colors (colors.py lines 320–817) -/

/-- One iteration of the loop over label groups (lines 584–661, with the
dead `run_permutations = False` branch omitted as the source disables it).
State: the mutable `icolors_to_pick` list and the `new_colors` array.

* `igroup`: the positions of the labels in group `g` (line 587).
* `isimilar`: positions *into `icolors_to_pick`* of the `N` unpicked colors
  most similar to the first unpicked color (lines 595–596).
* `grpColors`: their RGB values (line 598).
* `picks2`: `icolors_to_pick` with those values removed (lines 599–600).
* line 606 computes `np.argsort(isort_labels[igroup])`; when the adjacency
  matrix is absent, `isort_labels` is the Python object `range(nlabels)`
  (line 543), and fancy-indexing a `range` by a list raises `TypeError`.
* the reordered colors are written back at positions `isimilar` of
  `new_colors` (line 661), i.e. at pick-list positions, not label positions. -/
def groupStep (colors : List RGB) (dxMat : ℕ → ℕ → ℚ) (groups : List ℤ)
    (isortLabels : Option (List ℕ)) (st : List ℕ × List RGB) (g : ℤ) :
    Except String (List ℕ × List RGB) := do
  let picks := st.1
  let igroup := (List.range groups.length).filter (fun i => decide (groups.getD i 0 = g))
  let N := igroup.length
  let p0 ← match picks with
    | [] => Except.error "IndexError: list index out of range"
    | h :: _ => Except.ok h
  let dists := picks.map (fun p => dxMat p0 p)
  let isimilar := (argsortAsc dists).take N
  let grpColors := isimilar.map (fun i => colors.getD (picks.getD i 0) rgb0)
  let picks2 := (isimilar.map (fun i => picks.getD i 0)).foldl List.erase picks
  let vals ← match isortLabels with
    | none => Except.error "TypeError: range indices must be integers or slices"
    | some il => Except.ok (igroup.map (fun i => il.getD i 0))
  let isg := argsortAsc vals
  let grpColors2 := isg.map (fun i => grpColors.getD i rgb0)
  let newColors := (isimilar.zip grpColors2).foldl (fun nc pr => nc.set pr.1 pr.2) st.2
  return (picks2, newColors)

/-- Lines 569–661 after the adjacency-dependent preprocessing: build the
pairwise color-distance matrix and its row sums (lines 571–575), sort colors
by decreasing distance sum (line 579), loop over the label groups and return
`new_colors` (initialized at line 487 as a copy of the input colors). -/
def gcCore (d : RGB → RGB → ℚ) (colors : List RGB) (groups : List ℤ)
    (isortLabels : Option (List ℕ)) (labelGroups : List ℤ) :
    Except String (List RGB) := do
  let dxMat : ℕ → ℕ → ℚ := fun i j => d (colors.getD i rgb0) (colors.getD j rgb0)
  let dxSums := (List.range colors.length).map
    (fun i => ((List.range colors.length).map (fun j => dxMat i j)).sum)
  let picks0 := argsortDesc dxSums
  let st ← labelGroups.foldlM (groupStep colors dxMat groups isortLabels) (picks0, colors)
  return st.2

/-- Message of the `IOError` raised at lines 528–529 (`ShapeMismatchError`). -/
def shapeMsg : String :=
  "The colormap and label adjacency matrix do not have the same number of labels."

/-- `group_colors(colormap, adjacency_matrix, IDs, names, groups, ...)`
(lines 320–817), for a colormap and adjacency matrix passed as arrays (the
csv-file branches are I/O).  Empty `groups` defaults to one group per label
(line 494); `IDs`/`names` default similarly but only feed file output and
plots, never the returned colors.  When `np.size(adjacency_matrix)` is
non-zero the row count must match `nlabels` (lines 527–529), the matrix is
normalized by its maximum (line 532), labels are argsorted by decreasing
adjacency row sum (lines 540–541) and the groups by decreasing maximum member
sum (lines 548–554); otherwise `isort_labels` is the Python `range` object
(line 543).  The flag-gated plotting and file-saving code (lines 454–472,
666–810) never rebinds `new_colors`, so it is not part of the returned value. -/
def group_colors (d : RGB → RGB → ℚ) (colormap : List RGB)
    (adjacency_matrix : List (List ℚ)) (IDs : List ℤ) (names : List String)
    (groups : List ℤ) : Except String (List RGB) :=
  let nlabels := colormap.length
  let groups2 := if groups.isEmpty then List.replicate nlabels (1 : ℤ) else groups
  if npSize adjacency_matrix ≠ 0 then
    if adjacency_matrix.length ≠ nlabels then Except.error shapeMsg
    else
      let mx := listMaxQ adjacency_matrix.flatten
      let adjVals := adjacency_matrix.map (fun r => r.map (fun v => v / mx))
      let adjSums := adjVals.map List.sum
      let isortLabels := argsortDesc adjSums
      let labelGroups0 := npUnique groups2
      let maxSums := labelGroups0.map (fun g =>
        listMaxQ (((List.range groups2.length).filter
          (fun i => decide (groups2.getD i 0 = g))).map (fun i => adjSums.getD i 0)))
      let labelGroups := (argsortDesc maxSums).map (fun i => labelGroups0.getD i 0)
      gcCore d colormap groups2 (some isortLabels) labelGroups
  else
    gcCore d colormap groups2 none (npUnique groups2)

/-! ### Concrete perceptual-distance instances used in witnesses and
counterexamples -/

/-- The degenerate all-zero distance.  It satisfies the external contract the
spec states for the perceptual metric (pure, non-negative, zero on equal
colors). -/
def dzero : RGB → RGB → ℚ := fun _ _ => 0

/-- Taxicab distance on RGB triples: a concrete positive-definite instance of
the perceptual-distance contract. -/
def dtaxi (a b : RGB) : ℚ := |a.1 - b.1| + |a.2.1 - b.2.1| + |a.2.2 - b.2.2|

/-! ### Basic facts about the candidate pool -/

/-- Decidable equality for `Except` results, used to state concrete runs. -/
instance instDecEqExcept {ε α : Type} [DecidableEq ε] [DecidableEq α] :
    DecidableEq (Except ε α) := fun a b =>
  match a, b with
  | Except.ok x, Except.ok y =>
      if h : x = y then isTrue (by rw [h]) else isFalse (by simp [h])
  | Except.error e, Except.error f =>
      if h : e = f then isTrue (by rw [h]) else isFalse (by simp [h])
  | Except.ok _, Except.error _ => isFalse (by simp)
  | Except.error _, Except.ok _ => isFalse (by simp)

theorem RGBpool_length : RGBpool.length = 27000 := by
  simp only [RGBpool, List.length_flatMap, Function.comp_def, List.length_map,
    List.length_range, List.map_const', List.sum_replicate, smul_eq_mul, n_grid]

theorem RGBpool_ne_nil : RGBpool ≠ [] := by with_unfolding_all decide

theorem rgb0_mem_RGBpool : rgb0 ∈ RGBpool := by with_unfolding_all decide

theorem RGBpool_head : RGBpool.getD 0 rgb0 = rgb0 := by with_unfolding_all decide

theorem gridVal_injective : Function.Injective gridVal := by
  intro i j h
  unfold gridVal n_grid at h
  push_cast at h
  have h29 : ((30 : ℚ) - 1) ≠ 0 := by norm_num
  rw [div_eq_div_iff h29 h29] at h
  have h2 : (i : ℚ) = (j : ℚ) := mul_right_cancel₀ h29 h
  exact_mod_cast h2

theorem mem_RGBpool_iff (c : RGB) :
    c ∈ RGBpool ↔
      ∃ i j k : ℕ, i < 30 ∧ j < 30 ∧ k < 30 ∧ c = (gridVal i, gridVal j, gridVal k) := by
  simp only [RGBpool, List.mem_flatMap, List.mem_map, List.mem_range, n_grid]
  constructor
  · rintro ⟨a, ha, b, hb, k, hk, rfl⟩
    exact ⟨b, a, k, hb, ha, hk, rfl⟩
  · rintro ⟨i, j, k, hi, hj, hk, rfl⟩
    exact ⟨j, hj, i, hi, k, hk, rfl⟩

theorem RGBpool_nodup : RGBpool.Nodup := by
  have hinj := gridVal_injective
  unfold RGBpool
  rw [List.nodup_flatMap]
  constructor
  · intro a _
    rw [List.nodup_flatMap]
    constructor
    · intro b _
      refine List.Nodup.map ?_ (List.nodup_range _)
      intro c1 c2 hc
      simp only [Prod.mk.injEq] at hc
      exact hinj hc.2.2
    · refine (List.pairwise_lt_range _).imp ?_
      intro b1 b2 hb x hx1 hx2
      simp only [List.mem_map] at hx1 hx2
      obtain ⟨c1, _, rfl⟩ := hx1
      obtain ⟨c2, _, h2⟩ := hx2
      simp only [Prod.mk.injEq] at h2
      exact absurd (hinj h2.1.symm) (Nat.ne_of_lt hb)
  · refine (List.pairwise_lt_range _).imp ?_
    intro a1 a2 ha x hx1 hx2
    simp only [Function.onFun, List.mem_flatMap, List.mem_map] at hx1 hx2
    obtain ⟨b1, _, c1, _, rfl⟩ := hx1
    obtain ⟨b2, _, c2, _, h2⟩ := hx2
    simp only [Prod.mk.injEq] at h2
    exact absurd (hinj h2.2.1.symm) (Nat.ne_of_lt ha)

/-! ### Facts about listMaxW and argmaxIdx (np.argmax) -/

theorem init_le_foldl_max (l : List (WithTop ℚ)) :
    ∀ b : WithTop ℚ, b ≤ l.foldl max b := by
  induction l with
  | nil => intro b; exact le_refl b
  | cons a r ih => intro b; exact le_trans (le_max_left b a) (ih (max b a))

theorem mem_le_foldl_max (l : List (WithTop ℚ)) :
    ∀ (b x : WithTop ℚ), x ∈ l → x ≤ l.foldl max b := by
  induction l with
  | nil => intro b x hx; cases hx
  | cons a r ih =>
    intro b x hx
    rcases List.mem_cons.1 hx with h | h
    · subst h; exact le_trans (le_max_right b x) (init_le_foldl_max r (max b x))
    · exact ih (max b a) x h

theorem foldl_max_mem (l : List (WithTop ℚ)) :
    ∀ b : WithTop ℚ, l.foldl max b = b ∨ l.foldl max b ∈ l := by
  induction l with
  | nil => intro b; exact Or.inl rfl
  | cons a r ih =>
    intro b
    rcases ih (max b a) with h | h
    · rcases max_choice b a with hm | hm
      · exact Or.inl (h.trans hm)
      · exact Or.inr (List.mem_cons.2 (Or.inl (h.trans hm)))
    · exact Or.inr (List.mem_cons.2 (Or.inr h))

theorem le_listMaxW {l : List (WithTop ℚ)} {x : WithTop ℚ} (hx : x ∈ l) :
    x ≤ listMaxW l := by
  cases l with
  | nil => cases hx
  | cons a r =>
    rcases List.mem_cons.1 hx with h | h
    · subst h; exact init_le_foldl_max r x
    · exact mem_le_foldl_max r a x h

theorem listMaxW_mem {l : List (WithTop ℚ)} (hl : l ≠ []) : listMaxW l ∈ l := by
  cases l with
  | nil => exact absurd rfl hl
  | cons a r =>
    rcases foldl_max_mem r a with h | h
    · exact List.mem_cons.2 (Or.inl h)
    · exact List.mem_cons.2 (Or.inr h)

theorem argmaxIdx_lt_length {l : List (WithTop ℚ)} (hl : l ≠ []) :
    argmaxIdx l < l.length :=
  List.findIdx_lt_length_of_exists ⟨listMaxW l, listMaxW_mem hl, by simp⟩

theorem getElem_argmaxIdx {l : List (WithTop ℚ)} (hl : l ≠ []) :
    l.get ⟨argmaxIdx l, argmaxIdx_lt_length hl⟩ = listMaxW l := by
  rw [List.get_eq_getElem]
  have h := @List.findIdx_getElem _ (fun v => decide (v = listMaxW l)) l
    (argmaxIdx_lt_length hl)
  exact of_decide_eq_true h

/-! ### Facts about minOver -/

theorem minOver_append (d : RGB → RGB → ℚ) (S : List RGB) (c x : RGB) :
    minOver d (S ++ [x]) c = min (↑(d c x)) (minOver d S c) := by
  simp [minOver, List.foldl_append]

theorem foldl_min_le_init (d : RGB → RGB → ℚ) (c : RGB) (S : List RGB) :
    ∀ acc : WithTop ℚ, S.foldl (fun m s => min (↑(d c s)) m) acc ≤ acc := by
  induction S with
  | nil => intro acc; exact le_refl acc
  | cons s r ih =>
    intro acc
    exact le_trans (ih (min (↑(d c s)) acc)) (min_le_right _ _)

theorem foldl_min_le_mem (d : RGB → RGB → ℚ) (c : RGB) (S : List RGB) :
    ∀ (acc : WithTop ℚ) (s : RGB), s ∈ S →
      S.foldl (fun m x => min (↑(d c x)) m) acc ≤ ↑(d c s) := by
  induction S with
  | nil => intro acc s hs; cases hs
  | cons a r ih =>
    intro acc s hs
    rcases List.mem_cons.1 hs with h | h
    · subst h
      exact le_trans (foldl_min_le_init d c r (min (↑(d c s)) acc)) (min_le_left _ _)
    · exact ih (min (↑(d c a)) acc) s h

theorem minOver_le_mem (d : RGB → RGB → ℚ) (c : RGB) {S : List RGB} {s : RGB}
    (hs : s ∈ S) : minOver d S c ≤ ↑(d c s) :=
  foldl_min_le_mem d c S ⊤ s hs

theorem foldl_min_pos (d : RGB → RGB → ℚ) (c : RGB) (S : List RGB)
    (hS : ∀ s ∈ S, (0 : WithTop ℚ) < ↑(d c s)) :
    ∀ acc : WithTop ℚ, 0 < acc → 0 < S.foldl (fun m x => min (↑(d c x)) m) acc := by
  induction S with
  | nil => intro acc hacc; exact hacc
  | cons a r ih =>
    intro acc hacc
    exact ih (fun s hs => hS s (List.mem_cons.2 (Or.inr hs))) _
      (lt_min (hS a (List.mem_cons.2 (Or.inl rfl))) hacc)

theorem minOver_pos (d : RGB → RGB → ℚ) (c : RGB) {S : List RGB}
    (hS : ∀ s ∈ S, (0 : WithTop ℚ) < ↑(d c s)) : 0 < minOver d S c := by
  refine foldl_min_pos d c S hS ⊤ ?_
  rw [← WithTop.coe_zero]
  exact WithTop.coe_lt_top 0

/-! ### zipWith bridge and basic selectLoop lemmas -/

theorem zipWith_map_right_self {α β γ : Type} (g : α → β → γ) (f : α → β) :
    ∀ l : List α, List.zipWith (fun a b => g a b) l (l.map f) = l.map (fun a => g a (f a)) := by
  intro l
  induction l with
  | nil => rfl
  | cons a r ih => simp [List.zipWith, ih]

theorem selectLoop_step (d : RGB → RGB → ℚ) (n : ℕ) (minDx : List (WithTop ℚ))
    (lastColor : RGB) :
    selectLoop d (n + 1) minDx lastColor =
      RGBpool.getD
          (argmaxIdx (List.zipWith (fun c m => min (↑(d c lastColor)) m) RGBpool minDx)) rgb0
        :: selectLoop d n (List.zipWith (fun c m => min (↑(d c lastColor)) m) RGBpool minDx)
            (RGBpool.getD
              (argmaxIdx (List.zipWith (fun c m => min (↑(d c lastColor)) m) RGBpool minDx)) rgb0) :=
  rfl

theorem selectLoop_length (d : RGB → RGB → ℚ) :
    ∀ (n : ℕ) (minDx : List (WithTop ℚ)) (lastColor : RGB),
      (selectLoop d n minDx lastColor).length = n := by
  intro n
  induction n with
  | zero => intro minDx lastColor; rfl
  | succ n ih =>
    intro minDx lastColor
    rw [selectLoop_step, List.length_cons, ih]

theorem selectLoop_take (d : RGB → RGB → ℚ) :
    ∀ (k n : ℕ) (minDx : List (WithTop ℚ)) (lastColor : RGB), k ≤ n →
      (selectLoop d n minDx lastColor).take k = selectLoop d k minDx lastColor := by
  intro k
  induction k with
  | zero => intro n minDx lastColor _; rfl
  | succ k ih =>
    intro n minDx lastColor hk
    obtain ⟨m, rfl⟩ : ∃ m, n = m + 1 := ⟨n - 1, by omega⟩
    rw [selectLoop_step, selectLoop_step, List.take_succ_cons, ih m _ _ (by omega)]

theorem selectLoop_mem_RGBpool (d : RGB → RGB → ℚ) :
    ∀ (n : ℕ) (minDx : List (WithTop ℚ)) (lastColor : RGB) (c : RGB),
      c ∈ selectLoop d n minDx lastColor → c ∈ RGBpool := by
  intro n
  induction n with
  | zero => intro minDx lastColor c hc; cases hc
  | succ n ih =>
    intro minDx lastColor c hc
    rw [selectLoop_step] at hc
    rcases List.mem_cons.1 hc with h | h
    · subst h
      by_cases hlt :
          argmaxIdx (List.zipWith (fun c m => min (↑(d c lastColor)) m) RGBpool minDx) <
            RGBpool.length
      · rw [List.getD_eq_getElem RGBpool rgb0 hlt]
        exact List.getElem_mem hlt
      · rw [List.getD_eq_default RGBpool rgb0 (Nat.le_of_not_lt hlt)]
        exact rgb0_mem_RGBpool
    · exact ih _ _ c h

/-! ### The selection loop picks distinct, non-excluded candidates while the
maximal minimum distance stays positive -/

theorem length_filter_notMem_snoc (S : List RGB) (p : RGB) (hp : p ∈ RGBpool)
    (hnp : p ∉ S) :
    (RGBpool.filter (fun c => decide (c ∉ S ++ [p]))).length
      = (RGBpool.filter (fun c => decide (c ∉ S))).length - 1 := by
  have hpred : RGBpool.filter (fun c => decide (c ∉ S ++ [p]))
      = List.filter (fun c => c != p) (RGBpool.filter (fun c => decide (c ∉ S))) := by
    rw [List.filter_filter]
    refine List.filter_congr ?_
    intro x _
    by_cases h1 : x ∈ S
    · simp [h1, List.mem_append]
    · by_cases h2 : x = p
      · subst h2; simp [h1, List.mem_append]
      · simp [h1, h2, List.mem_append]
  have hA : (RGBpool.filter (fun c => decide (c ∉ S))).Nodup := RGBpool_nodup.filter _
  have hpA : p ∈ RGBpool.filter (fun c => decide (c ∉ S)) :=
    List.mem_filter.2 ⟨hp, by simp [hnp]⟩
  rw [hpred, ← List.Nodup.erase_eq_filter hA p]
  exact List.length_erase_of_mem hpA

theorem argmax_map_facts {α : Type} (g : α → WithTop ℚ) (l : List α) (dflt : α)
    (hl : l ≠ []) :
    l.getD (argmaxIdx (l.map g)) dflt ∈ l ∧
    (∀ x ∈ l, g x ≤ g (l.getD (argmaxIdx (l.map g)) dflt)) ∧
    g (l.getD (argmaxIdx (l.map g)) dflt) = listMaxW (l.map g) := by
  have hmne : l.map g ≠ [] := by simpa using hl
  have hi0 : argmaxIdx (l.map g) < (l.map g).length := argmaxIdx_lt_length hmne
  have hi : argmaxIdx (l.map g) < l.length := by simpa using hi0
  have hget : l.getD (argmaxIdx (l.map g)) dflt = l.get ⟨argmaxIdx (l.map g), hi⟩ := by
    rw [List.get_eq_getElem]
    exact List.getD_eq_getElem l dflt hi
  have hval : g (l.getD (argmaxIdx (l.map g)) dflt) = listMaxW (l.map g) := by
    calc g (l.getD (argmaxIdx (l.map g)) dflt)
        = g (l.get ⟨argmaxIdx (l.map g), hi⟩) := by rw [hget]
      _ = (l.map g).get ⟨argmaxIdx (l.map g), hi0⟩ := by
            rw [List.get_eq_getElem, List.get_eq_getElem]
            exact (List.getElem_map g).symm
      _ = listMaxW (l.map g) := getElem_argmaxIdx hmne
  refine ⟨?_, ?_, hval⟩
  · rw [hget, List.get_eq_getElem]
    exact List.getElem_mem hi
  · intro x hx
    calc g x ≤ listMaxW (l.map g) := le_listMaxW (List.mem_map_of_mem g hx)
      _ = g (l.getD (argmaxIdx (l.map g)) dflt) := hval.symm

theorem selectLoop_nodup_avoid (d : RGB → RGB → ℚ)
    (hnn : ∀ a b : RGB, 0 ≤ d a b) (hrefl : ∀ a : RGB, d a a = 0)
    (hpd : ∀ a b : RGB, d a b = 0 → a = b) :
    ∀ (n : ℕ) (S : List RGB) (lastColor : RGB),
      n ≤ (RGBpool.filter (fun c => decide (c ∉ S ++ [lastColor]))).length →
      (selectLoop d n (RGBpool.map (minOver d S)) lastColor).Nodup ∧
      ∀ c ∈ selectLoop d n (RGBpool.map (minOver d S)) lastColor, c ∉ S ++ [lastColor] := by
  intro n
  induction n with
  | zero =>
    intro S lastColor _
    exact ⟨List.nodup_nil, by intro c hc; cases hc⟩
  | succ n ih =>
    intro S lastColor hn
    have hstep : List.zipWith (fun c m => min (↑(d c lastColor)) m) RGBpool
        (RGBpool.map (minOver d S)) = RGBpool.map (minOver d (S ++ [lastColor])) := by
      rw [zipWith_map_right_self]
      exact List.map_congr_left (fun c _ => (minOver_append d S c lastColor).symm)
    rw [selectLoop_step, hstep]
    set S2 := S ++ [lastColor] with hS2
    obtain ⟨hpmem, hpmax, _⟩ := argmax_map_facts (minOver d S2) RGBpool rgb0 RGBpool_ne_nil
    set p := RGBpool.getD (argmaxIdx (RGBpool.map (minOver d S2))) rgb0 with hp
    have hex : ∃ cs, cs ∈ RGBpool ∧ cs ∉ S2 := by
      have hpos : 0 < (RGBpool.filter (fun c => decide (c ∉ S2))).length := by omega
      obtain ⟨cs, hcs⟩ := List.exists_mem_of_length_pos hpos
      exact ⟨cs, (List.mem_filter.1 hcs).1, of_decide_eq_true (List.mem_filter.1 hcs).2⟩
    obtain ⟨cs, hcsmem, hcsnot⟩ := hex
    have hposx : 0 < minOver d S2 cs := by
      refine minOver_pos d cs ?_
      intro s hs
      rw [← WithTop.coe_zero, WithTop.coe_lt_coe]
      rcases lt_or_eq_of_le (hnn cs s) with h | h
      · exact h
      · exfalso
        rw [hpd cs s h.symm] at hcsnot
        exact hcsnot hs
    have hmax_pos : 0 < minOver d S2 p := lt_of_lt_of_le hposx (hpmax cs hcsmem)
    have hpnot : p ∉ S2 := by
      intro hmem
      have h1 : minOver d S2 p ≤ ↑(d p p) := minOver_le_mem d p hmem
      rw [hrefl p, WithTop.coe_zero] at h1
      exact absurd (lt_of_lt_of_le hmax_pos h1) (lt_irrefl 0)
    have hcount : n ≤ (RGBpool.filter (fun c => decide (c ∉ S2 ++ [p]))).length := by
      rw [length_filter_notMem_snoc S2 p hpmem hpnot]
      omega
    obtain ⟨ihnodup, ihavoid⟩ := ih S2 p hcount
    constructor
    · rw [List.nodup_cons]
      refine ⟨?_, ihnodup⟩
      intro hpR
      exact (ihavoid p hpR) (List.mem_append.2 (Or.inr (List.mem_singleton.2 rfl)))
    · intro c hc
      rcases List.mem_cons.1 hc with h | h
      · subst h
        exact hpnot
      · intro hcS2
        exact (ihavoid c h) (List.mem_append.2 (Or.inl hcS2))

/-! ### Behavior of the selection loop under the degenerate all-zero metric -/

theorem foldl_min_dzero (c : RGB) :
    ∀ (S : List RGB) (acc : WithTop ℚ), S ≠ [] →
      S.foldl (fun m s => min (↑(dzero c s)) m) acc = min 0 acc := by
  intro S
  induction S with
  | nil => intro acc h; exact absurd rfl h
  | cons a r ih =>
    intro acc _
    rw [List.foldl_cons]
    by_cases hr : r = []
    · subst hr
      show min (↑(dzero c a)) acc = min 0 acc
      simp [dzero]
    · rw [ih _ hr]
      simp [dzero, ← min_assoc]

theorem minOver_dzero (S : List RGB) (hS : S ≠ []) (c : RGB) : minOver dzero S c = 0 := by
  unfold minOver
  rw [foldl_min_dzero c S ⊤ hS]
  exact min_eq_left le_top

theorem initMinDx_dzero (bgs : List RGB) (hbgs : bgs ≠ []) :
    initMinDx dzero bgs = RGBpool.map (fun _ => (0 : WithTop ℚ)) := by
  unfold initMinDx
  exact List.map_congr_left (fun c _ => minOver_dzero bgs hbgs c)

theorem zip_step_dzero (lastColor : RGB) :
    List.zipWith (fun c m => min (↑(dzero c lastColor)) m) RGBpool
      (RGBpool.map (fun _ => (0 : WithTop ℚ))) = RGBpool.map (fun _ => (0 : WithTop ℚ)) := by
  rw [zipWith_map_right_self]
  refine List.map_congr_left ?_
  intro c _
  simp [dzero]

theorem foldl_max_const (v : WithTop ℚ) :
    ∀ {α : Type} (r : List α), ((r.map (fun _ => v)).foldl max v) = v := by
  intro α r
  induction r with
  | nil => rfl
  | cons a t ih =>
    rw [List.map_cons, List.foldl_cons, max_self]
    exact ih

theorem listMaxW_map_const {α : Type} (l : List α) (hl : l ≠ []) (v : WithTop ℚ) :
    listMaxW (l.map (fun _ => v)) = v := by
  obtain ⟨a, t, rfl⟩ := List.exists_cons_of_ne_nil hl
  rw [List.map_cons]
  show (t.map (fun _ => v)).foldl max v = v
  exact foldl_max_const v t

theorem argmaxIdx_map_const {α : Type} (l : List α) (hl : l ≠ []) (v : WithTop ℚ) :
    argmaxIdx (l.map (fun _ => v)) = 0 := by
  obtain ⟨a, t, rfl⟩ := List.exists_cons_of_ne_nil hl
  unfold argmaxIdx
  rw [listMaxW_map_const _ (List.cons_ne_nil a t) v, List.map_cons, List.findIdx_cons]
  simp

theorem selectLoop_dzero : ∀ (n : ℕ) (lastColor : RGB),
    selectLoop dzero n (RGBpool.map (fun _ => (0 : WithTop ℚ))) lastColor
      = List.replicate n rgb0 := by
  intro n
  induction n with
  | zero => intro lastColor; rfl
  | succ n ih =>
    intro lastColor
    rw [selectLoop_step, zip_step_dzero, argmaxIdx_map_const RGBpool RGBpool_ne_nil,
      RGBpool_head, ih, List.replicate_succ]

theorem dc_dzero (n : ℕ) (hn : n ≤ 27000) :
    distinguishable_colors dzero n [((0:ℚ), (0:ℚ), (0:ℚ)), ((1:ℚ), (1:ℚ), (1:ℚ))]
        true true true
      = Except.ok (List.replicate n rgb0) := by
  unfold distinguishable_colors
  rw [RGBpool_length, if_neg (by omega)]
  show Except.ok (selectLoop dzero n
      (initMinDx dzero [((0:ℚ), (0:ℚ), (0:ℚ)), ((1:ℚ), (1:ℚ), (1:ℚ))])
      ((1:ℚ), (1:ℚ), (1:ℚ))) = _
  rw [initMinDx_dzero _ (by simp), selectLoop_dzero]

/-! ### The taxicab metric satisfies the perceptual-distance contract -/

theorem dtaxi_nonneg : ∀ a b : RGB, 0 ≤ dtaxi a b := by
  intro a b
  unfold dtaxi
  positivity

theorem dtaxi_refl : ∀ a : RGB, dtaxi a a = 0 := by
  intro a
  unfold dtaxi
  simp

theorem dtaxi_posdef : ∀ a b : RGB, dtaxi a b = 0 → a = b := by
  rintro ⟨a1, a2, a3⟩ ⟨b1, b2, b3⟩ h
  unfold dtaxi at h
  simp only at h
  have n1 := abs_nonneg (a1 - b1)
  have n2 := abs_nonneg (a2 - b2)
  have n3 := abs_nonneg (a3 - b3)
  have e1 : a1 = b1 := by have := abs_eq_zero.1 (by linarith : |a1 - b1| = 0); linarith
  have e2 : a2 = b2 := by have := abs_eq_zero.1 (by linarith : |a2 - b2| = 0); linarith
  have e3 : a3 = b3 := by have := abs_eq_zero.1 (by linarith : |a3 - b3| = 0); linarith
  simp [e1, e2, e3]

/-! ### getLast? membership and grid value bounds -/

theorem mem_of_getLast?RGB : ∀ {l : List RGB} {a : RGB}, l.getLast? = some a → a ∈ l := by
  intro l
  induction l with
  | nil => intro a h; cases h
  | cons x t ih =>
    intro a h
    cases t with
    | nil =>
      simp only [List.getLast?_singleton, Option.some.injEq] at h
      subst h
      exact List.mem_singleton.2 rfl
    | cons y u =>
      rw [List.getLast?_cons_cons] at h
      exact List.mem_cons.2 (Or.inr (ih h))

theorem gridVal_eq (i : ℕ) : gridVal i = (i : ℚ) / 29 := by
  unfold gridVal n_grid
  norm_num

theorem gridVal_bounds (i : ℕ) (h : i < 30) : 0 ≤ gridVal i ∧ gridVal i ≤ 1 := by
  rw [gridVal_eq]
  constructor
  · positivity
  · rw [div_le_one (by norm_num : (0:ℚ) < 29)]
    exact_mod_cast Nat.lt_succ_iff.1 h

/-! ### Success of distinguishable_colors with distinct, non-background picks -/

theorem dc_nodup_avoid (d : RGB → RGB → ℚ)
    (hnn : ∀ a b : RGB, 0 ≤ d a b) (hrefl : ∀ a : RGB, d a a = 0)
    (hpd : ∀ a b : RGB, d a b = 0 → a = b) (n : ℕ) (bgs : List RGB)
    (sc pc vb : Bool) (hbgs : bgs ≠ [])
    (hn : n ≤ (RGBpool.filter (fun c => decide (c ∉ bgs))).length) :
    ∃ l, distinguishable_colors d n bgs sc pc vb = Except.ok l ∧
      l.Nodup ∧ ∀ c ∈ l, c ∉ bgs := by
  have hcap : n ≤ 27000 := by
    refine le_trans hn ?_
    rw [← RGBpool_length]
    exact List.length_filter_le _ _
  unfold distinguishable_colors
  rw [RGBpool_length, if_neg (by omega)]
  obtain ⟨lastBg, hlast⟩ := Option.isSome_iff_exists.1 (List.getLast?_isSome.2 hbgs)
  have hlastmem : lastBg ∈ bgs := mem_of_getLast?RGB hlast
  rw [hlast]
  refine ⟨selectLoop d n (initMinDx d bgs) lastBg, rfl, ?_⟩
  have hfilter : (RGBpool.filter (fun c => decide (c ∉ bgs ++ [lastBg]))).length
      = (RGBpool.filter (fun c => decide (c ∉ bgs))).length := by
    congr 1
    refine List.filter_congr ?_
    intro x _
    by_cases hx : x ∈ bgs
    · simp [hx, List.mem_append]
    · by_cases hxl : x = lastBg
      · subst hxl
        exact absurd hlastmem hx
      · simp [hx, hxl, List.mem_append]
  have hmain := selectLoop_nodup_avoid d hnn hrefl hpd n bgs lastBg (by rw [hfilter]; exact hn)
  refine ⟨hmain.1, ?_⟩
  intro c hc hcbgs
  exact (hmain.2 c hc) (List.mem_append.2 (Or.inl hcbgs))

/-! ### Metric-independent failure at the capacity boundary.  For any
perceptual distance satisfying the external contract (non-negative, zero
self-distance), white keeps minimum distance 0 throughout and is never the
first argmax, while whenever the maximal minimum distance is 0 the argmax
falls back to index 0 = black.  Hence a full-pool request must return a
background color and must repeat a candidate. -/

theorem foldl_min_nonneg (d : RGB → RGB → ℚ) (c : RGB) (S : List RGB)
    (hS : ∀ s ∈ S, (0 : WithTop ℚ) ≤ ↑(d c s)) :
    ∀ acc : WithTop ℚ, 0 ≤ acc → 0 ≤ S.foldl (fun m x => min (↑(d c x)) m) acc := by
  induction S with
  | nil => intro acc hacc; exact hacc
  | cons a r ih =>
    intro acc hacc
    exact ih (fun s hs => hS s (List.mem_cons.2 (Or.inr hs))) _
      (le_min (hS a (List.mem_cons.2 (Or.inl rfl))) hacc)

theorem minOver_nonneg (d : RGB → RGB → ℚ) (hnn : ∀ a b : RGB, 0 ≤ d a b)
    (S : List RGB) (c : RGB) : 0 ≤ minOver d S c := by
  refine foldl_min_nonneg d c S ?_ ⊤ le_top
  intro s _
  rw [← WithTop.coe_zero, WithTop.coe_le_coe]
  exact hnn c s

theorem minOver_zero_of_mem (d : RGB → RGB → ℚ) (hnn : ∀ a b : RGB, 0 ≤ d a b)
    (hrefl : ∀ a : RGB, d a a = 0) {S : List RGB} {c : RGB} (hc : c ∈ S) :
    minOver d S c = 0 := by
  refine le_antisymm ?_ (minOver_nonneg d hnn S c)
  have h := minOver_le_mem d c hc
  rw [hrefl c, WithTop.coe_zero] at h
  exact h

theorem argmaxIdx_map_eq_zero {α : Type} (g : α → WithTop ℚ) (a : α) (t : List α)
    (h : g a = listMaxW ((a :: t).map g)) : argmaxIdx ((a :: t).map g) = 0 := by
  unfold argmaxIdx
  rw [List.map_cons, List.findIdx_cons]
  have hd : (decide (g a = listMaxW (g a :: t.map g))) = true := by
    rw [← List.map_cons]
    exact decide_eq_true h
  simp [hd]

/-- Either the argmax pick is black (index 0) or its minimum distance is
strictly positive; black itself always has minimum distance 0 once it is in
the excluded set. -/
theorem pick_cases (d : RGB → RGB → ℚ) (hnn : ∀ a b : RGB, 0 ≤ d a b)
    (hrefl : ∀ a : RGB, d a a = 0) (S2 : List RGB) (hbk : rgb0 ∈ S2) :
    RGBpool.getD (argmaxIdx (RGBpool.map (minOver d S2))) rgb0 = rgb0 ∨
    0 < minOver d S2 (RGBpool.getD (argmaxIdx (RGBpool.map (minOver d S2))) rgb0) := by
  obtain ⟨_, _, hpval⟩ := argmax_map_facts (minOver d S2) RGBpool rgb0 RGBpool_ne_nil
  have hbk0 : minOver d S2 rgb0 = 0 := minOver_zero_of_mem d hnn hrefl hbk
  by_cases hmax : listMaxW (RGBpool.map (minOver d S2)) = 0
  · left
    obtain ⟨p0, t0, hpool⟩ := List.exists_cons_of_ne_nil RGBpool_ne_nil
    have hp0 : p0 = rgb0 := by
      have hh := RGBpool_head
      rw [hpool, List.getD_cons_zero] at hh
      exact hh
    have hidx : argmaxIdx (RGBpool.map (minOver d S2)) = 0 := by
      rw [hpool]
      apply argmaxIdx_map_eq_zero
      rw [← hpool, hp0, hbk0, hmax]
    rw [hidx, RGBpool_head]
  · right
    rw [hpval]
    have h0le : (0 : WithTop ℚ) ≤ listMaxW (RGBpool.map (minOver d S2)) := by
      rw [← hbk0]
      exact le_listMaxW (List.mem_map_of_mem (minOver d S2) rgb0_mem_RGBpool)
    exact lt_of_le_of_ne h0le (Ne.symm hmax)

/-- White (the last default background) is never returned: its minimum
distance is 0 from the start, and whenever the maximum is 0 the first argmax
index is 0, which belongs to black. -/
theorem selectLoop_no_white (d : RGB → RGB → ℚ) (hnn : ∀ a b : RGB, 0 ≤ d a b)
    (hrefl : ∀ a : RGB, d a a = 0) :
    ∀ (n : ℕ) (S : List RGB) (lastColor : RGB),
      rgb0 ∈ S ++ [lastColor] → rgb1 ∈ S ++ [lastColor] →
      rgb1 ∉ selectLoop d n (RGBpool.map (minOver d S)) lastColor := by
  intro n
  induction n with
  | zero =>
    intro S lastColor _ _ h
    cases h
  | succ n ih =>
    intro S lastColor hbk hwh
    have hstep : List.zipWith (fun c m => min (↑(d c lastColor)) m) RGBpool
        (RGBpool.map (minOver d S)) = RGBpool.map (minOver d (S ++ [lastColor])) := by
      rw [zipWith_map_right_self]
      exact List.map_congr_left (fun c _ => (minOver_append d S c lastColor).symm)
    rw [selectLoop_step, hstep]
    set S2 := S ++ [lastColor] with hS2
    intro hmem
    rcases List.mem_cons.1 hmem with h | h
    · rcases pick_cases d hnn hrefl S2 hbk with hc | hc
      · exact absurd (h.trans hc) (by decide)
      · rw [← h, minOver_zero_of_mem d hnn hrefl hwh] at hc
        exact absurd hc (lt_irrefl 0)
    · exact ih S2 _ (List.mem_append.2 (Or.inl hbk)) (List.mem_append.2 (Or.inl hwh)) h

/-- Either black is among the picks, or the picks are distinct and disjoint
from the excluded set. -/
theorem selectLoop_black_or_fresh (d : RGB → RGB → ℚ) (hnn : ∀ a b : RGB, 0 ≤ d a b)
    (hrefl : ∀ a : RGB, d a a = 0) :
    ∀ (n : ℕ) (S : List RGB) (lastColor : RGB),
      rgb0 ∈ S ++ [lastColor] →
      rgb0 ∈ selectLoop d n (RGBpool.map (minOver d S)) lastColor ∨
      ((selectLoop d n (RGBpool.map (minOver d S)) lastColor).Nodup ∧
        ∀ c ∈ selectLoop d n (RGBpool.map (minOver d S)) lastColor, c ∉ S ++ [lastColor]) := by
  intro n
  induction n with
  | zero =>
    intro S lastColor _
    refine Or.inr ⟨List.nodup_nil, ?_⟩
    intro c hc
    cases hc
  | succ n ih =>
    intro S lastColor hbk
    have hstep : List.zipWith (fun c m => min (↑(d c lastColor)) m) RGBpool
        (RGBpool.map (minOver d S)) = RGBpool.map (minOver d (S ++ [lastColor])) := by
      rw [zipWith_map_right_self]
      exact List.map_congr_left (fun c _ => (minOver_append d S c lastColor).symm)
    rw [selectLoop_step, hstep]
    set S2 := S ++ [lastColor] with hS2
    rcases pick_cases d hnn hrefl S2 hbk with hc | hc
    · exact Or.inl (List.mem_cons.2 (Or.inl hc.symm))
    · set p := RGBpool.getD (argmaxIdx (RGBpool.map (minOver d S2))) rgb0 with hp
      have hpnot : p ∉ S2 := by
        intro hmem2
        have h1 : minOver d S2 p ≤ ↑(d p p) := minOver_le_mem d p hmem2
        rw [hrefl p, WithTop.coe_zero] at h1
        exact absurd (lt_of_lt_of_le hc h1) (lt_irrefl 0)
      rcases ih S2 p (List.mem_append.2 (Or.inl hbk)) with hb | ⟨hnd, hav⟩
      · exact Or.inl (List.mem_cons.2 (Or.inr hb))
      · refine Or.inr ⟨List.nodup_cons.2 ⟨?_, hnd⟩, ?_⟩
        · intro hin
          exact (hav p hin) (List.mem_append.2 (Or.inr (List.mem_singleton.2 rfl)))
        · intro c hc2
          rcases List.mem_cons.1 hc2 with h | h
          · subst h
            exact hpnot
          · intro hcS2
            exact (hav c h) (List.mem_append.2 (Or.inl hcS2))

theorem rgb1_mem_RGBpool : rgb1 ∈ RGBpool := by
  rw [mem_RGBpool_iff]
  refine ⟨29, 29, 29, by omega, by omega, by omega, ?_⟩
  rw [gridVal_eq]
  norm_num [rgb1]

theorem nodup_full_has_white {L : List RGB} (hsub : ∀ c ∈ L, c ∈ RGBpool)
    (hnd : L.Nodup) (hlen : L.length = 27000) : rgb1 ∈ L := by
  have hsp : L.Subperm RGBpool := hnd.subperm hsub
  have hperm : L.Perm RGBpool := hsp.perm_of_length_le (by rw [RGBpool_length, hlen])
  exact hperm.mem_iff.2 rgb1_mem_RGBpool

/-- For any metric satisfying the external contract, a 27000-color request on
the default backgrounds succeeds but returns some background color and
contains a repeated candidate. -/
theorem dc27000_master (d : RGB → RGB → ℚ) (hnn : ∀ a b : RGB, 0 ≤ d a b)
    (hrefl : ∀ a : RGB, d a a = 0) :
    ∃ l, distinguishable_colors d 27000 defaultBG true true true = Except.ok l ∧
      (∃ c ∈ l, c ∈ defaultBG) ∧ ¬ l.Nodup := by
  have hbkmem : rgb0 ∈ defaultBG ++ [((1:ℚ), (1:ℚ), (1:ℚ))] := by decide
  have hwhmem : rgb1 ∈ defaultBG ++ [((1:ℚ), (1:ℚ), (1:ℚ))] := by decide
  have hok : distinguishable_colors d 27000 defaultBG true true true
      = Except.ok (selectLoop d 27000 (initMinDx d defaultBG) ((1:ℚ), (1:ℚ), (1:ℚ))) := by
    unfold distinguishable_colors
    rw [RGBpool_length, if_neg (by omega)]
    rfl
  refine ⟨selectLoop d 27000 (initMinDx d defaultBG) ((1:ℚ), (1:ℚ), (1:ℚ)), hok, ?_, ?_⟩
  · rcases selectLoop_black_or_fresh d hnn hrefl 27000 defaultBG _ hbkmem with hb | ⟨hnd, _⟩
    · exact ⟨rgb0, hb, by decide⟩
    · have hwh := nodup_full_has_white
        (fun c hc => selectLoop_mem_RGBpool d 27000 _ _ c hc) hnd
        (selectLoop_length d 27000 _ _)
      exact ⟨rgb1, hwh, by decide⟩
  · intro hnd
    have hwh := nodup_full_has_white
      (fun c hc => selectLoop_mem_RGBpool d 27000 _ _ c hc) hnd
      (selectLoop_length d 27000 _ _)
    exact selectLoop_no_white d hnn hrefl 27000 defaultBG _ hbkmem hwhmem hwh

/-! ### Claim theorems -/

/-- C1: the claim states that `group_colors` returns a rearrangement of the
input colormap (equal multisets of RGB triples).  The code violates this: at
line 661 it writes the group's colors to `new_colors[isimilar]`, where
`isimilar` holds positions *into the shrinking pick list*, not label
positions, so later groups overwrite earlier writes at low positions.  For
the 3-color colormap below with groups `[1, 1, 2]` and a valid weighted
adjacency matrix, the run returns `[(1,0,0), (1,0,0), (0,1,1)]`: the input
color `(0,0,0)` is lost and `(1,0,0)` is duplicated, so the output is not a
permutation of the input. -/
theorem claim_C1_not_permutation :
    group_colors dtaxi
        [((0:ℚ), (0:ℚ), (0:ℚ)), ((1:ℚ), (0:ℚ), (0:ℚ)), ((0:ℚ), (1:ℚ), (1:ℚ))]
        [[0, 2, 0], [2, 0, 1], [0, 1, 0]] [] [] [1, 1, 2]
      = Except.ok
          [((1:ℚ), (0:ℚ), (0:ℚ)), ((1:ℚ), (0:ℚ), (0:ℚ)), ((0:ℚ), (1:ℚ), (1:ℚ))] ∧
    ¬ List.Perm
        [((1:ℚ), (0:ℚ), (0:ℚ)), ((1:ℚ), (0:ℚ), (0:ℚ)), ((0:ℚ), (1:ℚ), (1:ℚ))]
        ([((0:ℚ), (0:ℚ), (0:ℚ)), ((1:ℚ), (0:ℚ), (0:ℚ)), ((0:ℚ), (1:ℚ), (1:ℚ))] : List RGB) ∧
    ((0:ℚ), (0:ℚ), (0:ℚ)) ∈
      ([((0:ℚ), (0:ℚ), (0:ℚ)), ((1:ℚ), (0:ℚ), (0:ℚ)), ((0:ℚ), (1:ℚ), (1:ℚ))] : List RGB) ∧
    ((0:ℚ), (0:ℚ), (0:ℚ)) ∉
      ([((1:ℚ), (0:ℚ), (0:ℚ)), ((1:ℚ), (0:ℚ), (0:ℚ)), ((0:ℚ), (1:ℚ), (1:ℚ))] : List RGB) := by
  exact ⟨by with_unfolding_all decide, by decide, by decide, by decide⟩

/-- C2: the claim states that with an empty adjacency matrix `group_colors`
degrades to a single group and returns a full-length colormap without error.
The code instead raises `TypeError` for every non-empty colormap: at line 543
the empty-adjacency fallback sets `isort_labels = range(nlabels)` (a Python
`range` object), and line 606 fancy-indexes it with the list `igroup`, which
`range` does not support.  Evaluating the embedded code on a 1-color colormap
with all other arguments at their defaults reproduces the raised error. -/
theorem claim_C2_typeerror :
    group_colors dtaxi [((0:ℚ), (0:ℚ), (0:ℚ))] [] [] [] []
      = Except.error "TypeError: range indices must be integers or slices" := by
  with_unfolding_all decide

/-- C3: requesting more colors never changes earlier picks.  For every
perceptual metric `d`, every `k ≥ 1` with `k + 1` within the candidate pool
size 27000 and every background list, the first `k` colors of
`distinguishable_colors` called with `k + 1` equal the result of calling it
with `k`.  This holds because each loop iteration's state (`min_dx`, last
color) depends only on earlier iterations, never on `ncolors`. -/
theorem claim_C3_consistency (d : RGB → RGB → ℚ) (k : ℕ) (bgs : List RGB)
    (sc pc vb : Bool) (hk : 1 ≤ k) (hcap : k + 1 ≤ 27000) :
    (distinguishable_colors d (k + 1) bgs sc pc vb).map (fun l => l.take k)
      = distinguishable_colors d k bgs sc pc vb := by
  unfold distinguishable_colors
  rw [RGBpool_length, if_neg (by omega), if_neg (by omega)]
  cases hlast : bgs.getLast? with
  | none => rfl
  | some lastBg =>
    show Except.ok ((selectLoop d (k + 1) (initMinDx d bgs) lastBg).take k) = _
    rw [selectLoop_take d k (k + 1) _ _ (by omega)]

/-- C3 witness: at `k = 1` with the default backgrounds and the taxicab
metric, the 1-color selection is the prefix of the 2-color selection. -/
theorem claim_C3_consistency_witness :
    (distinguishable_colors dtaxi 2 [((0:ℚ), (0:ℚ), (0:ℚ)), ((1:ℚ), (1:ℚ), (1:ℚ))]
        true true true).map (fun l => l.take 1)
      = distinguishable_colors dtaxi 1 [((0:ℚ), (0:ℚ), (0:ℚ)), ((1:ℚ), (1:ℚ), (1:ℚ))]
        true true true :=
  claim_C3_consistency dtaxi 1 _ true true true (by omega) (by omega)

/-- C4 counterexample: the claim states that for every `1 ≤ ncolors ≤ 27000`
(the candidate pool size) and every non-empty background list, no returned
color equals a background color.  It fails at the valid request
`ncolors = 27000` with the default black/white backgrounds, here exhibited
with the positive-definite taxicab metric: once every candidate's minimum
distance has been driven to 0, `np.argmax` falls back to index 0, whose
candidate is pure black — itself a background color (the failure is
metric-independent, see `dc27000_master`). -/
theorem claim_C4_counterexample :
    ∃ l, distinguishable_colors dtaxi 27000 defaultBG true true true = Except.ok l ∧
      ∃ c ∈ l, c ∈ defaultBG := by
  obtain ⟨l, h1, h2, _⟩ := dc27000_master dtaxi dtaxi_nonneg dtaxi_refl
  exact ⟨l, h1, h2⟩

/-- C4 amended: if the perceptual distance is positive-definite (non-negative,
zero exactly on equal colors) and `ncolors` does not exceed the number of
candidates that differ from every background color, then the selection
succeeds and no returned color equals any background color. -/
theorem claim_C4_amended (d : RGB → RGB → ℚ)
    (hnn : ∀ a b : RGB, 0 ≤ d a b) (hrefl : ∀ a : RGB, d a a = 0)
    (hpd : ∀ a b : RGB, d a b = 0 → a = b) (n : ℕ) (bgs : List RGB)
    (sc pc vb : Bool) (hbgs : bgs ≠ [])
    (hn : n ≤ (RGBpool.filter (fun c => decide (c ∉ bgs))).length) :
    ∃ l, distinguishable_colors d n bgs sc pc vb = Except.ok l ∧
      ∀ c ∈ l, c ∉ bgs := by
  obtain ⟨l, h1, _, h3⟩ := dc_nodup_avoid d hnn hrefl hpd n bgs sc pc vb hbgs hn
  exact ⟨l, h1, h3⟩

/-- C4 amended witness: with the taxicab metric, one color away from the
default black/white backgrounds. -/
theorem claim_C4_amended_witness :
    ∃ l, distinguishable_colors dtaxi 1
        [((0:ℚ), (0:ℚ), (0:ℚ)), ((1:ℚ), (1:ℚ), (1:ℚ))] true true true = Except.ok l ∧
      ∀ c ∈ l, c ∉ ([((0:ℚ), (0:ℚ), (0:ℚ)), ((1:ℚ), (1:ℚ), (1:ℚ))] : List RGB) := by
  refine claim_C4_amended dtaxi dtaxi_nonneg dtaxi_refl dtaxi_posdef 1 _ true true true
    (by simp) ?_
  have hmemf : ((0:ℚ), (0:ℚ), (1:ℚ)/29) ∈ RGBpool.filter
      (fun c => decide (c ∉ ([((0:ℚ), (0:ℚ), (0:ℚ)), ((1:ℚ), (1:ℚ), (1:ℚ))] : List RGB))) :=
    List.mem_filter.2 ⟨by with_unfolding_all decide, by with_unfolding_all decide⟩
  exact List.length_pos_of_mem hmemf

/-- C5: `distinguishable_colors` fails (with the capacity error of line 91)
exactly when `ncolors` exceeds the pool size `30³ = 27000`; for any smaller
request with a non-empty background list it returns exactly `ncolors`
colors. -/
theorem claim_C5_capacity (d : RGB → RGB → ℚ) (n : ℕ) (bgs : List RGB)
    (sc pc vb : Bool) :
    (27000 < n → distinguishable_colors d n bgs sc pc vb = Except.error capacityMsg) ∧
    (bgs ≠ [] → n ≤ 27000 →
      ∃ l, distinguishable_colors d n bgs sc pc vb = Except.ok l ∧ l.length = n) := by
  constructor
  · intro h
    unfold distinguishable_colors
    rw [RGBpool_length, if_pos (by omega)]
  · intro hbgs hn
    unfold distinguishable_colors
    rw [RGBpool_length, if_neg (by omega)]
    obtain ⟨lastBg, hlast⟩ := Option.isSome_iff_exists.1 (List.getLast?_isSome.2 hbgs)
    rw [hlast]
    exact ⟨selectLoop d n (initMinDx d bgs) lastBg, rfl, selectLoop_length d n _ _⟩

/-- C5 witness: 27001 colors fail, 3 colors succeed. -/
theorem claim_C5_capacity_witness :
    distinguishable_colors dtaxi 27001
        [((0:ℚ), (0:ℚ), (0:ℚ)), ((1:ℚ), (1:ℚ), (1:ℚ))] true true true
      = Except.error capacityMsg ∧
    ∃ l, distinguishable_colors dtaxi 3
        [((0:ℚ), (0:ℚ), (0:ℚ)), ((1:ℚ), (1:ℚ), (1:ℚ))] true true true
      = Except.ok l ∧ l.length = 3 :=
  ⟨(claim_C5_capacity dtaxi 27001 _ true true true).1 (by omega),
   (claim_C5_capacity dtaxi 3 _ true true true).2 (by simp) (by omega)⟩

/-- C6 counterexample: the claim states that the returned candidates are
pairwise distinct for every valid `ncolors`, by the zero-self-distance
argument.  It fails at the valid request `ncolors = 27000` (the pool size)
with the default backgrounds, here exhibited with the positive-definite
taxicab metric: white keeps minimum distance 0 throughout and can never be
the first argmax, so the 27000 picks cannot enumerate the 27000-candidate
pool and must repeat (metric-independent, see `dc27000_master`). -/
theorem claim_C6_counterexample :
    ∃ l, distinguishable_colors dtaxi 27000 defaultBG true true true = Except.ok l ∧
      ¬ l.Nodup := by
  obtain ⟨l, h1, _, h3⟩ := dc27000_master dtaxi dtaxi_nonneg dtaxi_refl
  exact ⟨l, h1, h3⟩

/-- C6 amended: if the perceptual distance is positive-definite and `ncolors`
does not exceed the number of candidates distinct from every background
color, the returned candidates are pairwise distinct: a picked candidate's
minimum distance is driven to 0 by its zero self-distance while some
unpicked candidate still has positive minimum distance, so the argmax never
returns an already-picked candidate. -/
theorem claim_C6_amended (d : RGB → RGB → ℚ)
    (hnn : ∀ a b : RGB, 0 ≤ d a b) (hrefl : ∀ a : RGB, d a a = 0)
    (hpd : ∀ a b : RGB, d a b = 0 → a = b) (n : ℕ) (bgs : List RGB)
    (sc pc vb : Bool) (hbgs : bgs ≠ [])
    (hn : n ≤ (RGBpool.filter (fun c => decide (c ∉ bgs))).length) :
    ∃ l, distinguishable_colors d n bgs sc pc vb = Except.ok l ∧ l.Nodup := by
  obtain ⟨l, h1, h2, _⟩ := dc_nodup_avoid d hnn hrefl hpd n bgs sc pc vb hbgs hn
  exact ⟨l, h1, h2⟩

/-- C6 amended witness: two distinct colors with the taxicab metric. -/
theorem claim_C6_amended_witness :
    ∃ l, distinguishable_colors dtaxi 2
        [((0:ℚ), (0:ℚ), (0:ℚ)), ((1:ℚ), (1:ℚ), (1:ℚ))] true true true = Except.ok l ∧
      l.Nodup := by
  refine claim_C6_amended dtaxi dtaxi_nonneg dtaxi_refl dtaxi_posdef 2 _ true true true
    (by simp) ?_
  have hmemf1 : ((0:ℚ), (0:ℚ), (1:ℚ)/29) ∈ RGBpool.filter
      (fun c => decide (c ∉ ([((0:ℚ), (0:ℚ), (0:ℚ)), ((1:ℚ), (1:ℚ), (1:ℚ))] : List RGB))) :=
    List.mem_filter.2 ⟨by with_unfolding_all decide, by with_unfolding_all decide⟩
  have hmemf2 : ((0:ℚ), (0:ℚ), (2:ℚ)/29) ∈ RGBpool.filter
      (fun c => decide (c ∉ ([((0:ℚ), (0:ℚ), (0:ℚ)), ((1:ℚ), (1:ℚ), (1:ℚ))] : List RGB))) :=
    List.mem_filter.2 ⟨by with_unfolding_all decide, by with_unfolding_all decide⟩
  have hne : ((0:ℚ), (0:ℚ), (1:ℚ)/29) ≠ ((0:ℚ), (0:ℚ), (2:ℚ)/29) := by
    with_unfolding_all decide
  -- a list with two distinct members has length at least 2
  rcases List.exists_cons_of_ne_nil (List.ne_nil_of_mem hmemf1) with ⟨a, t, hat⟩
  by_cases h1 : ((0:ℚ), (0:ℚ), (1:ℚ)/29) = a
  · have h2t : ((0:ℚ), (0:ℚ), (2:ℚ)/29) ∈ t := by
      have := hmemf2
      rw [hat] at this
      rcases List.mem_cons.1 this with h | h
      · exact absurd (h1.trans h.symm) hne
      · exact h
    rw [hat]
    simp only [List.length_cons]
    have := List.length_pos_of_mem h2t
    omega
  · have h1t : ((0:ℚ), (0:ℚ), (1:ℚ)/29) ∈ t := by
      have := hmemf1
      rw [hat] at this
      rcases List.mem_cons.1 this with h | h
      · exact absurd h h1
      · exact h
    rw [hat]
    simp only [List.length_cons]
    have := List.length_pos_of_mem h1t
    omega

/-- C7: when the adjacency matrix is non-empty (`np.size` non-zero) and its
row count differs from the number of colors, `group_colors` raises the shape
mismatch error of lines 527–529 and returns no colormap. -/
theorem claim_C7_shape_mismatch (d : RGB → RGB → ℚ) (colormap : List RGB)
    (adjacency_matrix : List (List ℚ)) (IDs : List ℤ) (names : List String)
    (groups : List ℤ) (h1 : npSize adjacency_matrix ≠ 0)
    (h2 : adjacency_matrix.length ≠ colormap.length) :
    group_colors d colormap adjacency_matrix IDs names groups
      = Except.error shapeMsg := by
  unfold group_colors
  rw [if_pos h1, if_pos h2]

/-- C7 witness: a 1×1 adjacency matrix against a 2-color colormap. -/
theorem claim_C7_shape_mismatch_witness :
    group_colors dtaxi [((0:ℚ), (0:ℚ), (0:ℚ)), ((1:ℚ), (1:ℚ), (1:ℚ))] [[1]] [] [] []
      = Except.error shapeMsg :=
  claim_C7_shape_mismatch dtaxi _ _ _ _ _ (by decide) (by decide)

/-- C8: the claim states that within each group the chosen colors are
assigned so that each member label receives the color at its rank in
`label_order` restricted to the group (higher-connectivity members first).
The code does not implement this: line 606 fancy-indexes the *order array*
`isort_labels` by the member positions instead of taking member ranks, and
line 661 writes the reordered colors to the pick-list positions `isimilar`
instead of the member label positions.  In the run below, label 1 has the
strictly largest adjacency row sum of group 1 (3/2 against 1 for label 0), so
under the claim it must receive the group's leading color `(0,1,1)` (the most
distinguishable color, which seeds the group's selection); the code instead
produces `(1,0,0)` at position 1. -/
theorem claim_C8_group_reorder :
    group_colors dtaxi
        [((0:ℚ), (0:ℚ), (0:ℚ)), ((1:ℚ), (0:ℚ), (0:ℚ)), ((0:ℚ), (1:ℚ), (1:ℚ))]
        [[0, 2, 0], [2, 0, 1], [0, 1, 0]] [] [] [1, 1, 2]
      = Except.ok
          [((1:ℚ), (0:ℚ), (0:ℚ)), ((1:ℚ), (0:ℚ), (0:ℚ)), ((0:ℚ), (1:ℚ), (1:ℚ))] ∧
    ([((1:ℚ), (0:ℚ), (0:ℚ)), ((1:ℚ), (0:ℚ), (0:ℚ)), ((0:ℚ), (1:ℚ), (1:ℚ))] : List RGB).getD
        1 rgb0 ≠ ((0:ℚ), (1:ℚ), (1:ℚ)) := by
  exact ⟨by with_unfolding_all decide, by decide⟩

/-- C9: the embedded `distinguishable_colors` is a pure function of the
metric, `ncolors` and `backgrounds`: repeated runs give identical results,
and the value is independent of the `save_csv`, `plot_colormap` and `verbose`
flags, whose branches in the source (lines 149–172) only plot and write files
without rebinding the returned array. -/
theorem claim_C9_determinism (d : RGB → RGB → ℚ) (n : ℕ) (bgs : List RGB)
    (s1 p1 v1 s2 p2 v2 : Bool) :
    distinguishable_colors d n bgs s1 p1 v1 = distinguishable_colors d n bgs s2 p2 v2 :=
  rfl

/-- C10: every color returned by `distinguishable_colors` lies on the
hard-coded 30-per-axis grid: each coordinate is `i / 29` for some
`0 ≤ i ≤ 29`, hence lies in `[0, 1]`; and the candidate pool size is the
constant 27000, independent of all arguments. -/
theorem claim_C10_grid (d : RGB → RGB → ℚ) (n : ℕ) (bgs : List RGB)
    (sc pc vb : Bool) (l : List RGB)
    (h : distinguishable_colors d n bgs sc pc vb = Except.ok l) :
    RGBpool.length = 27000 ∧
    ∀ c ∈ l, ∃ i j k : ℕ, i ≤ 29 ∧ j ≤ 29 ∧ k ≤ 29 ∧
      c = ((i : ℚ) / 29, (j : ℚ) / 29, (k : ℚ) / 29) ∧
      0 ≤ c.1 ∧ c.1 ≤ 1 ∧ 0 ≤ c.2.1 ∧ c.2.1 ≤ 1 ∧ 0 ≤ c.2.2 ∧ c.2.2 ≤ 1 := by
  refine ⟨RGBpool_length, ?_⟩
  intro c hc
  unfold distinguishable_colors at h
  split at h
  · exact absurd h (by simp)
  · split at h
    · exact absurd h (by simp)
    · rw [Except.ok.injEq] at h
      subst h
      have hmem := selectLoop_mem_RGBpool d n _ _ c hc
      rw [mem_RGBpool_iff] at hmem
      obtain ⟨i, j, k, hi, hj, hk, rfl⟩ := hmem
      obtain ⟨hi0, hi1⟩ := gridVal_bounds i hi
      obtain ⟨hj0, hj1⟩ := gridVal_bounds j hj
      obtain ⟨hk0, hk1⟩ := gridVal_bounds k hk
      exact ⟨i, j, k, by omega, by omega, by omega,
        by rw [gridVal_eq, gridVal_eq, gridVal_eq],
        hi0, hi1, hj0, hj1, hk0, hk1⟩

/-- C10 witness: the single color picked by the all-zero metric is on the
grid. -/
theorem claim_C10_grid_witness :
    RGBpool.length = 27000 ∧
    ∀ c ∈ List.replicate 1 rgb0, ∃ i j k : ℕ, i ≤ 29 ∧ j ≤ 29 ∧ k ≤ 29 ∧
      c = ((i : ℚ) / 29, (j : ℚ) / 29, (k : ℚ) / 29) ∧
      0 ≤ c.1 ∧ c.1 ≤ 1 ∧ 0 ≤ c.2.1 ∧ c.2.1 ≤ 1 ∧ 0 ≤ c.2.2 ∧ c.2.2 ≤ 1 :=
  claim_C10_grid dzero 1 [((0:ℚ), (0:ℚ), (0:ℚ)), ((1:ℚ), (1:ℚ), (1:ℚ))] true true true
    (List.replicate 1 rgb0) (dc_dzero 1 (by omega))
